import Mathlib

/-!
Shallow embedding of the editing core of `blockglow/editor` (src/src/main.rs).

Strings are modelled as `List Char` (the program only ever handles ASCII
characters coming from single key presses, so byte indices and character
indices coincide).  Machine integers are modelled as `Int`/`Nat` with the
wrapping and saturating behaviour of the Rust casts and operations made
explicit.  A Rust indexing expression `v[i]` that can panic is modelled in
the `Option` monad: `none` models a panic of the operation.
-/

namespace Editor64

/-- Rust `std::mem::size_of::<u8>()`, which is 1 (one byte), not the number
of bits in a byte.  The source uses it as the divisor of its dirty-bitmap
index arithmetic. -/
def sizeOfU8 : Nat := 1

/-- Wrap an unbounded integer into the `i64` range, modelling Rust's
release-mode wrapping arithmetic and `as i64` casts. -/
def i64Wrap (z : Int) : Int := (z + 2 ^ 63) % 2 ^ 64 - 2 ^ 63

/-- Rust `usize -> i64` cast (`as _` in the source). -/
def i64OfUsize (n : Nat) : Int := i64Wrap n

/-- Rust `i64 -> usize` cast (`as usize` in the source): bit-reinterpretation,
i.e. reduction modulo 2^64. -/
def usizeOfI64 (z : Int) : Nat := (z % 2 ^ 64).toNat

/-- Rust `usize -> u16` cast (`as u16` in the source). -/
def u16OfUsize (n : Nat) : Nat := n % 2 ^ 16

/-- Rust `i64::saturating_add`. -/
def satAdd64 (a b : Int) : Int := max (-(2 ^ 63)) (min (2 ^ 63 - 1) (a + b))

/-- Rust `i64::saturating_sub`. -/
def satSub64 (a b : Int) : Int := max (-(2 ^ 63)) (min (2 ^ 63 - 1) (a - b))

/-- Rust `Vec::resize` / `Vec::resize_with` to length `n`, filling with `d`:
truncates when the vector is longer than `n`, extends with `d` otherwise. -/
def listResize {α : Type} (l : List α) (n : Nat) (d : α) : List α :=
  l.take n ++ List.replicate (n - l.length) d

/-- `struct Line { dirty: Vec<u8>, forward: String, backward: String }`. -/
structure Line where
  dirty : List Nat
  forward : List Char
  backward : List Char
deriving DecidableEq

/-- `Line::default()`. -/
def Line.default : Line := ⟨[], [], []⟩

/-- `Line::len`: `forward.len() + backward.len()`. -/
def Line.len (l : Line) : Nat := l.forward.length + l.backward.length

/-- `LogicalPos(I64Vec2)`: a pair of `i64` coordinates. -/
structure LogicalPos where
  x : Int
  y : Int
deriving DecidableEq

/-- `struct Move { x: i64, y: i64 }`. -/
structure Move where
  x : Int
  y : Int
deriving DecidableEq

/-- `struct File { lines, current_caret, desired_caret }`. -/
structure File where
  lines : List Line
  current_caret : LogicalPos
  desired_caret : LogicalPos
deriving DecidableEq

/-- `File::default()`: no lines, both carets at the origin. -/
def File.default : File := ⟨[], ⟨0, 0⟩, ⟨0, 0⟩⟩

/-- `enum ControlFlow { Continue, Exit }`. -/
inductive ControlFlow where
  | Continue : ControlFlow
  | Exit : ControlFlow
deriving DecidableEq

/-- `enum Action`.  `Place` carries the string to insert. -/
inductive Action where
  | Exit : Action
  | Up : Action
  | Down : Action
  | Left : Action
  | Right : Action
  | Place : List Char → Action
  | Remove : Action
  | Delete : Action
deriving DecidableEq

/-- `struct Editor { open, files, last_activity }`.  The `last_activity`
timestamp is storage only (never read by the core) and is not modelled.
The field `open` is a Lean keyword and is rendered `openIdx`. -/
structure Editor where
  openIdx : Nat
  files : List File
deriving DecidableEq

/-- `Editor::default()`: one default `File`, `open = 0`. -/
def Editor.default : Editor := ⟨0, [File.default]⟩

/-- `Editor::remove`.  Indexing `file.lines[current_caret.y as usize]` can
panic (`none`).  `forward.pop()` drops the last character.  The source line
`file.current_caret.x.saturating_sub(1);` computes the saturating
difference and discards it (the caret is not written), which the embedding
reproduces with a discarded `let`. -/
def Editor.remove (e : Editor) : Option Editor := do
  let file ← e.files[e.openIdx]?
  let row := usizeOfI64 file.current_caret.y
  let line ← file.lines[row]?
  let line2 : Line := { line with forward := line.forward.dropLast }
  let _discarded := satSub64 file.current_caret.x 1
  let file2 : File := { file with lines := file.lines.set row line2 }
  pure { e with files := e.files.set e.openIdx file2 }

/-- `Editor::place`.  Resizes the line vector to `current_caret.y + 1`
(truncating or growing), appends `s` to the row's forward segment, updates
`current_caret.x` to `min(saturating_add(x, s.len), line.len)`, resizes the
dirty vector to `line.len / size_of::<u8>() + 1` bytes and ORs
`1 << (x % size_of::<u8>())` into byte `x / size_of::<u8>()`.  Indexing the
dirty vector panics (`none`) when the caret column is out of its range. -/
def Editor.place (e : Editor) (s : List Char) : Option Editor := do
  let file ← e.files[e.openIdx]?
  let row := usizeOfI64 file.current_caret.y
  let lines1 := listResize file.lines (row + 1) Line.default
  let line ← lines1[row]?
  let forward2 := line.forward ++ s
  let lineLen := forward2.length + line.backward.length
  let x2 := min (satAdd64 file.current_caret.x (i64OfUsize s.length)) (i64OfUsize lineLen)
  let dirty1 := listResize line.dirty (lineLen / sizeOfU8 + 1) 0
  let xIdx := usizeOfI64 x2
  let byte ← dirty1[xIdx / sizeOfU8]?
  let dirty2 := dirty1.set (xIdx / sizeOfU8) (byte ||| (1 <<< (xIdx % sizeOfU8)))
  let line2 : Line := { line with forward := forward2, dirty := dirty2 }
  let file2 : File := { file with
    lines := lines1.set row line2,
    current_caret := { file.current_caret with x := x2 } }
  pure { e with files := e.files.set e.openIdx file2 }

/-- `Editor::move_caret`.  Adds the delta to `desired_caret`, then sets
`desired_caret.y` to `max(y, line_count)`, indexes that row (which can
panic, modelled by `none`), and sets `desired_caret.x` to
`max(x, line_len)`.  Note the source uses `max`, not `min`. -/
def Editor.move_caret (e : Editor) (m : Move) : Option Editor := do
  let file ← e.files[e.openIdx]?
  let line_count := file.lines.length
  let x1 := i64Wrap (file.desired_caret.x + m.x)
  let y1 := i64Wrap (file.desired_caret.y + m.y)
  let y2 := max y1 (i64OfUsize line_count)
  let line ← file.lines[usizeOfI64 y2]?
  let x2 := max x1 (i64OfUsize line.len)
  let file2 : File := { file with desired_caret := ⟨x2, y2⟩ }
  pure { e with files := e.files.set e.openIdx file2 }

/-- `Editor::apply`: the action dispatcher.  `Right`/`Left`/`Up`/`Down` use
the unit vectors `X`, `-X`, `Y`, `-Y`; `Delete` is an explicit no-op;
`Exit` short-circuits with `ControlFlow::Exit`. -/
def Editor.apply (e : Editor) (a : Action) : Option (Editor × ControlFlow) :=
  match a with
  | .Exit => some (e, .Exit)
  | .Right => (e.move_caret ⟨1, 0⟩).map (fun e2 => (e2, .Continue))
  | .Left => (e.move_caret ⟨-1, 0⟩).map (fun e2 => (e2, .Continue))
  | .Up => (e.move_caret ⟨0, 1⟩).map (fun e2 => (e2, .Continue))
  | .Down => (e.move_caret ⟨0, -1⟩).map (fun e2 => (e2, .Continue))
  | .Delete => some (e, .Continue)
  | .Place s => (e.place s).map (fun e2 => (e2, .Continue))
  | .Remove => e.remove.map (fun e2 => (e2, .Continue))

/-- The dirty test used by `Editor::draw`:
`dirty[x / size_of::<u8>()] & (1 << (x % size_of::<u8>())) != 0`. -/
def dirtyTest (dirty : List Nat) (x : Nat) : Bool :=
  dirty.getD (x / sizeOfU8) 0 &&& (1 <<< (x % sizeOfU8)) != 0

/-- One iteration of the inner loop of `Editor::draw` for column `x` of the
line at row `y`: `some (col, row, c)` when a positioned single-character
print is issued, `none` when the column is skipped.  In the after-segment
branch the source rebinds `x` to `x - forward.len()` and then uses the
rebound value in `MoveTo`, which the embedding reproduces. -/
def drawCell (y : Nat) (line : Line) (x : Nat) : Option (Nat × Nat × Char) :=
  if dirtyTest line.dirty x then
    if x < line.forward.length then
      (line.forward[x]?).map (fun c => (u16OfUsize x, u16OfUsize y, c))
    else
      let x2 := x - line.forward.length
      (line.backward[x2]?).map (fun c => (u16OfUsize x2, u16OfUsize y, c))
  else none

/-- The instructions `Editor::draw` emits for one line: the inner loop runs
`x` over `0..dirty.len()`. -/
def drawLine (y : Nat) (line : Line) : List (Nat × Nat × Char) :=
  (List.range line.dirty.length).filterMap (drawCell y line)

/-- `Editor::draw`: iterates the active file's lines with their row index
and emits the per-line instructions in order.  Indexing
`self.files[self.open]` can panic (`none`). -/
def Editor.draw (e : Editor) : Option (List (Nat × Nat × Char)) := do
  let file ← e.files[e.openIdx]?
  pure (file.lines.enum.flatMap (fun p => drawLine p.1 p.2))

/-- Reachable editor states: `Editor::default()` and everything a
successful dispatch reaches from a reachable state. -/
inductive Reachable : Editor → Prop where
  | init : Reachable Editor.default
  | step {e e2 : Editor} {a : Action} {cf : ControlFlow} :
      Reachable e → e.apply a = some (e2, cf) → Reachable e2

/-- Dispatch a whole list of actions, keeping only the editor state;
`none` as soon as one dispatch panics. -/
def dispatchAll (e : Editor) (acts : List Action) : Option Editor :=
  acts.foldlM (fun e2 a => (e2.apply a).map (fun p => p.1)) e

/-- The line buffer of file `fi`, row `li` (defaulting when absent). -/
def lineAt (e : Editor) (fi li : Nat) : Line :=
  (e.files.getD fi File.default).lines.getD li Line.default

/-- The committed caret row (`current_caret.y`) of file `fi`. -/
def caretY (e : Editor) (fi : Nat) : Int :=
  (e.files.getD fi File.default).current_caret.y

/-- The number of lines of file `fi`. -/
def linesCountAt (e : Editor) (fi : Nat) : Nat :=
  (e.files.getD fi File.default).lines.length

/-- The committed caret column (`current_caret.x`) of file `fi`. -/
def caretX (e : Editor) (fi : Nat) : Int :=
  (e.files.getD fi File.default).current_caret.x

/-- An editor whose single document holds exactly one empty line, both
carets at the origin. -/
def oneEmptyLineEditor : Editor := ⟨0, [⟨[Line.default], ⟨0, 0⟩, ⟨0, 0⟩⟩]⟩

/-- The state `Editor::default()` reaches after `Place("")`. -/
def placedEmptyEditor : Editor := ⟨0, [⟨[⟨[1], [], []⟩], ⟨0, 0⟩, ⟨0, 0⟩⟩]⟩

/-- The state `Editor::default()` reaches after `Place("hi")`. -/
def placedHiEditor : Editor :=
  ⟨0, [⟨[⟨[0, 0, 1], ['h', 'i'], []⟩], ⟨2, 0⟩, ⟨0, 0⟩⟩]⟩

/-- The state `placedHiEditor` reaches after one `Remove`. -/
def removedHiEditor : Editor :=
  ⟨0, [⟨[⟨[0, 0, 1], ['h'], []⟩], ⟨2, 0⟩, ⟨0, 0⟩⟩]⟩

/-- The state after `Place("hi")`, `Place("!")`, `Remove`, `Remove` from
`Editor::default()`. -/
def scenarioFinalEditor : Editor :=
  ⟨0, [⟨[⟨[0, 0, 1, 1], ['h'], []⟩], ⟨3, 0⟩, ⟨0, 0⟩⟩]⟩

/-- The state `Editor::default()` reaches after `Place("abc")`. -/
def placedAbcEditor : Editor :=
  ⟨0, [⟨[⟨[0, 0, 0, 1], ['a', 'b', 'c'], []⟩], ⟨3, 0⟩, ⟨0, 0⟩⟩]⟩

/-- The state after `Place("ab")`, `Remove`, `Remove` from
`Editor::default()`: the line is empty again but the dirty store still has
its mark at index 2. -/
def abRemovedEditor : Editor :=
  ⟨0, [⟨[⟨[0, 0, 1], [], []⟩], ⟨2, 0⟩, ⟨0, 0⟩⟩]⟩

/-- The state `abRemovedEditor` (and also `Editor::default()`) reaches
after `Place("x")`. -/
def placedXEditor : Editor :=
  ⟨0, [⟨[⟨[0, 1], ['x'], []⟩], ⟨1, 0⟩, ⟨0, 0⟩⟩]⟩

/-- A document with two lines (the second holding `"z"`), caret at the
origin. -/
def twoLineEditor : Editor :=
  ⟨0, [⟨[Line.default, ⟨[], [], ['z']⟩], ⟨0, 0⟩, ⟨0, 0⟩⟩]⟩

/-- A line split around the caret: `"a"` before, `"b"` after, columns 0
and 1 both marked dirty. -/
def splitLine : Line := ⟨[1, 1], ['a'], ['b']⟩

/-- An editor whose single document holds `splitLine`. -/
def splitLineEditor : Editor := ⟨0, [⟨[splitLine], ⟨0, 0⟩, ⟨0, 0⟩⟩]⟩

theorem getD_set_eq {α : Type} (l : List α) (i : Nat) (a d : α) (h : i < l.length) :
    (l.set i a).getD i d = a := by
  simp [List.getD_eq_getElem?_getD, List.getElem?_set_self h]

theorem getD_set_ne {α : Type} (l : List α) {i j : Nat} (a d : α) (h : i ≠ j) :
    (l.set i a).getD j d = l.getD j d := by
  simp [List.getD_eq_getElem?_getD, List.getElem?_set_ne h]

theorem getD_of_getElem? {α : Type} {l : List α} {i : Nat} {a : α} (h : l[i]? = some a)
    (d : α) : l.getD i d = a := by
  simp [List.getD_eq_getElem?_getD, h]

theorem getD_of_length_le {α : Type} {l : List α} {i : Nat} (h : l.length ≤ i) (d : α) :
    l.getD i d = d := by
  simp [List.getD_eq_getElem?_getD, List.getElem?_eq_none h]

theorem listResize_length {α : Type} (l : List α) (n : Nat) (d : α) :
    (listResize l n d).length = n := by
  simp only [listResize, List.length_append, List.length_take, List.length_replicate]
  omega

theorem getD_listResize {α : Type} (l : List α) (n j : Nat) (d : α) :
    (listResize l n d).getD j d = if j < n then l.getD j d else d := by
  rcases Nat.lt_or_ge j n with hj | hj
  · rw [if_pos hj]
    rcases Nat.lt_or_ge j l.length with hl | hl
    · rw [listResize, List.getD_eq_getElem?_getD, List.getElem?_append,
        List.getD_eq_getElem?_getD]
      rw [if_pos (by simp [List.length_take]; omega)]
      simp [List.getElem?_take, hj]
    · rw [listResize, List.getD_eq_getElem?_getD, List.getElem?_append]
      rw [if_neg (by simp [List.length_take]; omega)]
      rw [List.getElem?_replicate]
      rw [if_pos (by simp [List.length_take]; omega)]
      simp [List.getElem?_eq_none hl]
  · have : (listResize l n d).length ≤ j := by rw [listResize_length]; omega
    rw [if_neg (by omega), getD_of_length_le this]

theorem dirtyTest_eq (d : List Nat) (x : Nat) :
    dirtyTest d x = (d.getD x 0 &&& 1 != 0) := by
  simp [dirtyTest, sizeOfU8, Nat.mod_one, Nat.div_one, Nat.shiftLeft_zero]

theorem dirtyTest_true_lt {d : List Nat} {x : Nat} (h : dirtyTest d x = true) :
    x < d.length := by
  rw [dirtyTest_eq] at h
  by_contra hx
  rw [getD_of_length_le (by omega)] at h
  simp at h

theorem lor_one_and_one (b : Nat) : ((b ||| 1) &&& 1 != 0) = true := by
  have h1 : (b ||| 1).testBit 0 = true := by simp
  simp only [Nat.testBit, Nat.shiftRight_zero, bne_iff_ne] at h1
  simp [Nat.and_comm, h1]

theorem remove_lineAt_dirty {e e2 : Editor} (h : e.remove = some e2) (fi li : Nat) :
    (lineAt e2 fi li).dirty = (lineAt e fi li).dirty := by
  simp only [Editor.remove, Option.bind_eq_bind, Option.bind_eq_some, Option.pure_def,
    Option.some.injEq] at h
  obtain ⟨file, hfile, line, hline, he2⟩ := h
  subst he2
  unfold lineAt
  simp only
  rcases eq_or_ne e.openIdx fi with hfi | hfi
  · subst hfi
    rw [getD_set_eq _ _ _ _ (List.getElem?_eq_some.mp hfile).1]
    rw [getD_of_getElem? hfile]
    simp only
    rcases eq_or_ne (usizeOfI64 file.current_caret.y) li with hli | hli
    · subst hli
      rw [getD_set_eq _ _ _ _ (List.getElem?_eq_some.mp hline).1]
      rw [getD_of_getElem? hline]
    · rw [getD_set_ne _ _ _ hli]
  · rw [getD_set_ne _ _ _ hfi]

theorem remove_caretY {e e2 : Editor} (h : e.remove = some e2) (fi : Nat) :
    caretY e2 fi = caretY e fi := by
  simp only [Editor.remove, Option.bind_eq_bind, Option.bind_eq_some, Option.pure_def,
    Option.some.injEq] at h
  obtain ⟨file, hfile, line, hline, he2⟩ := h
  subst he2
  unfold caretY
  simp only
  rcases eq_or_ne e.openIdx fi with hfi | hfi
  · subst hfi
    rw [getD_set_eq _ _ _ _ (List.getElem?_eq_some.mp hfile).1]
    rw [getD_of_getElem? hfile]
  · rw [getD_set_ne _ _ _ hfi]

theorem remove_shape {e e2 : Editor} (h : e.remove = some e2) :
    e2.openIdx = e.openIdx ∧ e2.files.length = e.files.length ∧
      (∀ fi, linesCountAt e2 fi = linesCountAt e fi) := by
  simp only [Editor.remove, Option.bind_eq_bind, Option.bind_eq_some, Option.pure_def,
    Option.some.injEq] at h
  obtain ⟨file, hfile, line, hline, he2⟩ := h
  subst he2
  refine ⟨rfl, by simp, ?_⟩
  intro fi
  unfold linesCountAt
  simp only
  rcases eq_or_ne e.openIdx fi with hfi | hfi
  · subst hfi
    rw [getD_set_eq _ _ _ _ (List.getElem?_eq_some.mp hfile).1]
    rw [getD_of_getElem? hfile]
    simp
  · rw [getD_set_ne _ _ _ hfi]

theorem move_files {e e2 : Editor} {m : Move} (h : e.move_caret m = some e2) (fi : Nat) :
    (e2.files.getD fi File.default).lines = (e.files.getD fi File.default).lines ∧
      (e2.files.getD fi File.default).current_caret =
        (e.files.getD fi File.default).current_caret := by
  simp only [Editor.move_caret, Option.bind_eq_bind, Option.bind_eq_some, Option.pure_def,
    Option.some.injEq] at h
  obtain ⟨file, hfile, line, hline, he2⟩ := h
  subst he2
  simp only
  rcases eq_or_ne e.openIdx fi with hfi | hfi
  · subst hfi
    rw [getD_set_eq _ _ _ _ (List.getElem?_eq_some.mp hfile).1]
    rw [getD_of_getElem? hfile]
    exact ⟨rfl, rfl⟩
  · rw [getD_set_ne _ _ _ hfi]
    exact ⟨rfl, rfl⟩

theorem move_shape {e e2 : Editor} {m : Move} (h : e.move_caret m = some e2) :
    e2.openIdx = e.openIdx ∧ e2.files.length = e.files.length := by
  simp only [Editor.move_caret, Option.bind_eq_bind, Option.bind_eq_some, Option.pure_def,
    Option.some.injEq] at h
  obtain ⟨file, hfile, line, hline, he2⟩ := h
  subst he2
  exact ⟨rfl, by simp⟩

/-- Structural decomposition of a successful `place`: the reached state is
the source's record with the large derived subterms (`n` the resized dirty
length, `xIdx` the caret byte index, `byte` the read byte, `x2` the updated
caret column) abstracted. -/
theorem place_decomp {e e2 : Editor} {s : List Char} (h : e.place s = some e2) :
    ∃ (file : File) (line : Line) (n xIdx byte : Nat) (x2 : Int),
      e.files[e.openIdx]? = some file ∧
      (listResize file.lines (usizeOfI64 file.current_caret.y + 1)
          Line.default)[usizeOfI64 file.current_caret.y]? = some line ∧
      (listResize line.dirty n 0)[xIdx / sizeOfU8]? = some byte ∧
      e2 = Editor.mk e.openIdx (e.files.set e.openIdx
        (File.mk
          ((listResize file.lines (usizeOfI64 file.current_caret.y + 1)
              Line.default).set (usizeOfI64 file.current_caret.y)
            (Line.mk
              ((listResize line.dirty n 0).set (xIdx / sizeOfU8)
                (byte ||| 1 <<< (xIdx % sizeOfU8)))
              (line.forward ++ s) line.backward))
          (LogicalPos.mk x2 file.current_caret.y)
          file.desired_caret)) := by
  simp only [Editor.place, Option.bind_eq_bind, Option.bind_eq_some, Option.pure_def,
    Option.some.injEq] at h
  obtain ⟨file, hfile, line, hline, byte, hbyte, he2⟩ := h
  exact ⟨file, line, _, _, byte, _, hfile, hline, hbyte, he2.symm⟩

theorem place_caretY {e e2 : Editor} {s : List Char} (h : e.place s = some e2) (fi : Nat) :
    caretY e2 fi = caretY e fi := by
  obtain ⟨file, line, n, xIdx, byte, x2, hfile, hline, hbyte, he2⟩ := place_decomp h
  subst he2
  unfold caretY
  simp only
  rcases eq_or_ne e.openIdx fi with hfi | hfi
  · subst hfi
    rw [getD_set_eq _ _ _ _ (List.getElem?_eq_some.mp hfile).1]
    rw [getD_of_getElem? hfile]
  · rw [getD_set_ne _ _ _ hfi]

theorem place_shape {e e2 : Editor} {s : List Char} (h : e.place s = some e2) :
    e2.openIdx = e.openIdx ∧ e2.files.length = e.files.length ∧
      linesCountAt e2 e.openIdx = usizeOfI64 (caretY e e.openIdx) + 1 := by
  obtain ⟨file, line, n, xIdx, byte, x2, hfile, hline, hbyte, he2⟩ := place_decomp h
  subst he2
  refine ⟨rfl, by simp, ?_⟩
  unfold linesCountAt caretY
  simp only
  rw [getD_set_eq _ _ _ _ (List.getElem?_eq_some.mp hfile).1]
  rw [getD_of_getElem? hfile]
  simp only [List.length_set, listResize_length]

theorem place_dirty_mono {e e2 : Editor} {s : List Char} (h : e.place s = some e2)
    (fi li x : Nat) (hlen : x < (lineAt e2 fi li).dirty.length)
    (hold : dirtyTest (lineAt e fi li).dirty x = true) :
    dirtyTest (lineAt e2 fi li).dirty x = true := by
  obtain ⟨file, line, n, xIdx, byte, x2, hfile, hline, hbyte, he2⟩ := place_decomp h
  subst he2
  unfold lineAt at hlen hold ⊢
  simp only at hlen hold ⊢
  rcases eq_or_ne e.openIdx fi with hfi | hfi
  case inr => rw [getD_set_ne _ _ _ hfi] at hlen ⊢; exact hold
  subst hfi
  rw [getD_set_eq _ _ _ _ (List.getElem?_eq_some.mp hfile).1] at hlen ⊢
  rw [getD_of_getElem? hfile] at hold
  simp only at hlen hold ⊢
  rcases eq_or_ne (usizeOfI64 file.current_caret.y) li with hli | hli
  case inr =>
    rw [getD_set_ne _ _ _ hli] at hlen ⊢
    have hres := getD_listResize file.lines (usizeOfI64 file.current_caret.y + 1) li
      Line.default
    rcases Nat.lt_or_ge li (usizeOfI64 file.current_caret.y + 1) with h1 | h1
    · rw [hres, if_pos h1] at hlen ⊢
      exact hold
    · rw [hres, if_neg (by omega)] at hlen
      simp [Line.default] at hlen
  subst hli
  have hrow : usizeOfI64 file.current_caret.y <
      (listResize file.lines (usizeOfI64 file.current_caret.y + 1) Line.default).length := by
    rw [listResize_length]; omega
  rw [getD_set_eq _ _ _ _ hrow] at hlen ⊢
  have hlineq : file.lines.getD (usizeOfI64 file.current_caret.y) Line.default = line := by
    have h0 := getD_of_getElem? hline Line.default
    rwa [getD_listResize, if_pos (Nat.lt_succ_self _)] at h0
  rw [hlineq] at hold
  simp only [sizeOfU8, Nat.div_one, Nat.mod_one, Nat.shiftLeft_zero] at hlen hbyte ⊢
  rw [dirtyTest_eq] at hold ⊢
  rcases eq_or_ne xIdx x with hx | hx
  · subst hx
    rw [getD_set_eq _ _ _ _ (List.getElem?_eq_some.mp hbyte).1]
    exact lor_one_and_one byte
  · rw [getD_set_ne _ _ _ hx]
    rw [List.length_set, listResize_length] at hlen
    rw [getD_listResize, if_pos hlen]
    exact hold

theorem move_caretY {e e2 : Editor} {m : Move} (h : e.move_caret m = some e2) (fi : Nat) :
    caretY e2 fi = caretY e fi := by
  unfold caretY
  rw [(move_files h fi).2]

theorem move_lineAt {e e2 : Editor} {m : Move} (h : e.move_caret m = some e2) (fi li : Nat) :
    lineAt e2 fi li = lineAt e fi li := by
  unfold lineAt
  rw [(move_files h fi).1]

theorem apply_caretY {e e2 : Editor} {a : Action} {cf : ControlFlow}
    (h : e.apply a = some (e2, cf)) (fi : Nat) : caretY e2 fi = caretY e fi := by
  cases a <;> simp only [Editor.apply, Option.map_eq_some', Option.some.injEq,
    Prod.mk.injEq] at h
  case Exit => rw [← h.1]
  case Delete => rw [← h.1]
  case Up =>
    obtain ⟨e1, hm, he, _⟩ := h
    rw [← he]; exact move_caretY hm fi
  case Down =>
    obtain ⟨e1, hm, he, _⟩ := h
    rw [← he]; exact move_caretY hm fi
  case Left =>
    obtain ⟨e1, hm, he, _⟩ := h
    rw [← he]; exact move_caretY hm fi
  case Right =>
    obtain ⟨e1, hm, he, _⟩ := h
    rw [← he]; exact move_caretY hm fi
  case Place s =>
    obtain ⟨e1, hp, he, _⟩ := h
    rw [← he]; exact place_caretY hp fi
  case Remove =>
    obtain ⟨e1, hr, he, _⟩ := h
    rw [← he]; exact remove_caretY hr fi

theorem apply_dirty_mono {e e2 : Editor} {a : Action} {cf : ControlFlow}
    (h : e.apply a = some (e2, cf)) (fi li x : Nat)
    (hlen : x < (lineAt e2 fi li).dirty.length)
    (hold : dirtyTest (lineAt e fi li).dirty x = true) :
    dirtyTest (lineAt e2 fi li).dirty x = true := by
  cases a <;> simp only [Editor.apply, Option.map_eq_some', Option.some.injEq,
    Prod.mk.injEq] at h
  case Exit => rw [← h.1]; exact hold
  case Delete => rw [← h.1]; exact hold
  case Up =>
    obtain ⟨e1, hm, he, _⟩ := h
    rw [← he, move_lineAt hm fi li]; exact hold
  case Down =>
    obtain ⟨e1, hm, he, _⟩ := h
    rw [← he, move_lineAt hm fi li]; exact hold
  case Left =>
    obtain ⟨e1, hm, he, _⟩ := h
    rw [← he, move_lineAt hm fi li]; exact hold
  case Right =>
    obtain ⟨e1, hm, he, _⟩ := h
    rw [← he, move_lineAt hm fi li]; exact hold
  case Place s =>
    obtain ⟨e1, hp, he, _⟩ := h
    rw [← he] at hlen ⊢
    exact place_dirty_mono hp fi li x hlen hold
  case Remove =>
    obtain ⟨e1, hr, he, _⟩ := h
    rw [← he, remove_lineAt_dirty hr fi li]; exact hold

theorem apply_shape {e e2 : Editor} {a : Action} {cf : ControlFlow}
    (h : e.apply a = some (e2, cf)) :
    e2.openIdx = e.openIdx ∧ e2.files.length = e.files.length := by
  cases a <;> simp only [Editor.apply, Option.map_eq_some', Option.some.injEq,
    Prod.mk.injEq] at h
  case Exit => rw [← h.1]; exact ⟨rfl, rfl⟩
  case Delete => rw [← h.1]; exact ⟨rfl, rfl⟩
  case Up =>
    obtain ⟨e1, hm, he, _⟩ := h
    rw [← he]; exact move_shape hm
  case Down =>
    obtain ⟨e1, hm, he, _⟩ := h
    rw [← he]; exact move_shape hm
  case Left =>
    obtain ⟨e1, hm, he, _⟩ := h
    rw [← he]; exact move_shape hm
  case Right =>
    obtain ⟨e1, hm, he, _⟩ := h
    rw [← he]; exact move_shape hm
  case Place s =>
    obtain ⟨e1, hp, he, _⟩ := h
    rw [← he]; exact ⟨(place_shape hp).1, (place_shape hp).2.1⟩
  case Remove =>
    obtain ⟨e1, hr, he, _⟩ := h
    rw [← he]; exact ⟨(remove_shape hr).1, (remove_shape hr).2.1⟩

/-- The invariant every reachable editor satisfies: the open index is 0,
there is exactly one file, its committed caret row is 0 and it has at most
one line. -/
def EditorInv (e : Editor) : Prop :=
  e.openIdx = 0 ∧ e.files.length = 1 ∧ caretY e 0 = 0 ∧ linesCountAt e 0 ≤ 1

theorem inv_init : EditorInv Editor.default := by
  refine ⟨rfl, rfl, rfl, ?_⟩
  unfold linesCountAt Editor.default File.default
  simp

theorem inv_step {e e2 : Editor} {a : Action} {cf : ControlFlow}
    (hinv : EditorInv e) (h : e.apply a = some (e2, cf)) : EditorInv e2 := by
  obtain ⟨ho, hf, hy, hl⟩ := hinv
  obtain ⟨ho2, hf2⟩ := apply_shape h
  refine ⟨ho2.trans ho, hf2.trans hf, (apply_caretY h 0).trans hy, ?_⟩
  cases a <;> simp only [Editor.apply, Option.map_eq_some', Option.some.injEq,
    Prod.mk.injEq] at h
  case Exit => rw [← h.1]; exact hl
  case Delete => rw [← h.1]; exact hl
  case Up =>
    obtain ⟨e1, hm, he, _⟩ := h
    rw [← he]; unfold linesCountAt; rw [(move_files hm 0).1]; exact hl
  case Down =>
    obtain ⟨e1, hm, he, _⟩ := h
    rw [← he]; unfold linesCountAt; rw [(move_files hm 0).1]; exact hl
  case Left =>
    obtain ⟨e1, hm, he, _⟩ := h
    rw [← he]; unfold linesCountAt; rw [(move_files hm 0).1]; exact hl
  case Right =>
    obtain ⟨e1, hm, he, _⟩ := h
    rw [← he]; unfold linesCountAt; rw [(move_files hm 0).1]; exact hl
  case Place s =>
    obtain ⟨e1, hp, he, _⟩ := h
    have h3 := (place_shape hp).2.2
    rw [ho, hy] at h3
    rw [← he, h3]
    simp [usizeOfI64, i64Wrap]
  case Remove =>
    obtain ⟨e1, hr, he, _⟩ := h
    rw [← he, (remove_shape hr).2.2 0]; exact hl

theorem reachable_inv {e : Editor} (h : Reachable e) : EditorInv e := by
  induction h with
  | init => exact inv_init
  | step _ happ ih => exact inv_step ih happ

/-- Claim C1: the spec asserts every core operation is total on reachable
states (movement clamps, `Remove` on an empty line sequence is a no-op).
On the code, `Remove` on the fresh default editor (whose single document
has an empty line vector) indexes `lines[0]` out of bounds and panics
(`none`), and every directional move on the reachable one-line document
sets the desired row to `max(row, line_count) = 1` and panics indexing
`lines[1]`.  This theorem evaluates the code at those failing inputs. -/
theorem C1_core_operations_panic :
    Editor.default.apply Action.Remove = none ∧
    Editor.default.apply (Action.Place []) = some (placedEmptyEditor, ControlFlow.Continue) ∧
    placedEmptyEditor.apply Action.Up = none ∧
    placedEmptyEditor.apply Action.Down = none ∧
    placedEmptyEditor.apply Action.Left = none ∧
    placedEmptyEditor.apply Action.Right = none := by decide

/-- Claim C2: the spec asserts that every directional move from the origin
on a document with exactly one empty line resolves the desired caret to
row 0, column 0.  On the code, all four moves instead panic: the row is
clamped with `max` against the line count (1), and `lines[1]` is out of
bounds.  This theorem evaluates the code at the failing inputs. -/
theorem C2_moves_on_one_empty_line_panic :
    oneEmptyLineEditor.apply Action.Up = none ∧
    oneEmptyLineEditor.apply Action.Down = none ∧
    oneEmptyLineEditor.apply Action.Left = none ∧
    oneEmptyLineEditor.apply Action.Right = none := by decide

/-- Claim C3: the spec asserts `remove()` deletes the last character of the
before-segment and decrements the caret column by one (saturating at 0).
On the code, the character is deleted but the column is unchanged: the
result of `saturating_sub` is discarded.  After `Place("hi")` (column 2),
one `remove` leaves the line at `"h"` with the column still 2, not 1. -/
theorem C3_remove_does_not_decrement_column :
    Editor.default.apply (Action.Place ['h', 'i']) =
      some (placedHiEditor, ControlFlow.Continue) ∧
    placedHiEditor.remove = some removedHiEditor ∧
    (lineAt removedHiEditor 0 0).forward = ['h'] ∧
    (lineAt removedHiEditor 0 0).backward = [] ∧
    caretX removedHiEditor 0 = 2 ∧
    ¬ caretX removedHiEditor 0 = 1 := by decide

/-- Claim C4: the spec's scenario `Place("hi")`, `Place("!")`, `Remove`,
`Remove` from a fresh editor should end with line content `"h"`, caret
column 1, row 0.  The code ends with content `"h"` and row 0 as claimed,
but the caret column is 3, because `remove` discards the decremented
column.  This theorem evaluates the code on the scenario. -/
theorem C4_scenario_final_column_is_three :
    dispatchAll Editor.default
      [Action.Place ['h', 'i'], Action.Place ['!'], Action.Remove, Action.Remove] =
      some scenarioFinalEditor ∧
    (lineAt scenarioFinalEditor 0 0).forward ++ (lineAt scenarioFinalEditor 0 0).backward
      = ['h'] ∧
    caretY scenarioFinalEditor 0 = 0 ∧
    caretX scenarioFinalEditor 0 = 3 ∧
    ¬ caretX scenarioFinalEditor 0 = 1 := by decide

/-- Claim C5 counterexample: after `place("abc")` on an empty line at row 0
with an all-clear bitmap the claim wants marks for columns 0, 1 and 2; the
code's dirty store is `[0, 0, 0, 1]`, so columns 0, 1 and 2 are not
marked. -/
theorem C5_counterexample_columns_not_marked :
    Editor.default.place ['a', 'b', 'c'] = some placedAbcEditor ∧
    (lineAt placedAbcEditor 0 0).dirty = [0, 0, 0, 1] ∧
    dirtyTest (lineAt placedAbcEditor 0 0).dirty 0 = false ∧
    dirtyTest (lineAt placedAbcEditor 0 0).dirty 1 = false ∧
    dirtyTest (lineAt placedAbcEditor 0 0).dirty 2 = false := by decide

/-- Claim C5 (amended): `place` marks exactly one entry — the one at the
updated caret column (3 after `place("abc")`) — in a store laid out one
byte per column (`size_of::<u8>() = 1`), of exactly `length() / 1 + 1`
bytes, which is at least the claimed `length() / 8 + 1` bytes. -/
theorem C5_amended_single_mark_at_caret_column :
    Editor.default.place ['a', 'b', 'c'] = some placedAbcEditor ∧
    (lineAt placedAbcEditor 0 0).dirty = [0, 0, 0, 1] ∧
    dirtyTest (lineAt placedAbcEditor 0 0).dirty 3 = true ∧
    caretX placedAbcEditor 0 = 3 ∧
    (lineAt placedAbcEditor 0 0).dirty.length =
      (lineAt placedAbcEditor 0 0).len / sizeOfU8 + 1 ∧
    (lineAt placedAbcEditor 0 0).len / 8 + 1 ≤ (lineAt placedAbcEditor 0 0).dirty.length := by
  decide

/-- Claim C6 counterexample: on the reachable state after `Place("ab")`,
`Remove`, `Remove` the dirty store is `[0, 0, 1]` (column 2 marked);
dispatching `Place("x")` resizes the store down to `[0, 1]`, clearing the
mark at column 2. -/
theorem C6_counterexample_mark_cleared_by_place :
    dispatchAll Editor.default [Action.Place ['a', 'b'], Action.Remove, Action.Remove] =
      some abRemovedEditor ∧
    dirtyTest (lineAt abRemovedEditor 0 0).dirty 2 = true ∧
    abRemovedEditor.apply (Action.Place ['x']) = some (placedXEditor, ControlFlow.Continue) ∧
    dirtyTest (lineAt placedXEditor 0 0).dirty 2 = false := by decide

/-- Claim C6 (amended): for every reachable state and every dispatched
action, a dirty mark set before the action is still set afterwards
provided its index is still within the (possibly truncated) dirty store;
the render pass clears nothing, and only `place`'s resize can drop marks
beyond the new store length. -/
theorem C6_amended_dirty_marks_monotone {e : Editor} (_hr : Reachable e) {a : Action}
    {e2 : Editor} {cf : ControlFlow} (h : e.apply a = some (e2, cf))
    (fi li x : Nat) (hlen : x < (lineAt e2 fi li).dirty.length)
    (hold : dirtyTest (lineAt e fi li).dirty x = true) :
    dirtyTest (lineAt e2 fi li).dirty x = true :=
  apply_dirty_mono h fi li x hlen hold

/-- Witness for C6: the mark at column 2 set by `Place("hi")` survives a
`Remove`. -/
theorem C6_witness_mark_survives_remove :
    dirtyTest (lineAt removedHiEditor 0 0).dirty 2 = true :=
  C6_amended_dirty_marks_monotone
    (Reachable.step Reachable.init (by decide :
      Editor.default.apply (Action.Place ['h', 'i']) =
        some (placedHiEditor, ControlFlow.Continue)))
    (by decide : placedHiEditor.apply Action.Remove =
      some (removedHiEditor, ControlFlow.Continue))
    0 0 2 (by decide) (by decide)

/-- Claim C7 counterexample: on a document with two lines and the caret at
row 0, `place("x")` resizes the line vector to `row + 1 = 1` entries,
shrinking it from 2 lines to 1 and discarding the second line. -/
theorem C7_counterexample_lines_shrink :
    linesCountAt twoLineEditor 0 = 2 ∧
    twoLineEditor.place ['x'] = some placedXEditor ∧
    linesCountAt placedXEditor 0 = 1 ∧
    ¬ linesCountAt twoLineEditor 0 ≤ linesCountAt placedXEditor 0 := by decide

/-- Claim C7 (amended): `place` resizes the line vector to exactly
`current_caret.row + 1` entries (growing with empty lines, but truncating
a longer document); on reachable states (row 0, at most one line) no
dispatched action ever reduces the line count. -/
theorem C7_amended_lines_never_shrink_on_reachable :
    (∀ (e e2 : Editor) (s : List Char), e.place s = some e2 →
      linesCountAt e2 e.openIdx = usizeOfI64 (caretY e e.openIdx) + 1) ∧
    (∀ (e : Editor), Reachable e → ∀ (a : Action) (e2 : Editor) (cf : ControlFlow),
      e.apply a = some (e2, cf) → linesCountAt e 0 ≤ linesCountAt e2 0) := by
  constructor
  · intro e e2 s h
    exact (place_shape h).2.2
  · intro e hr a e2 cf h
    obtain ⟨ho, hf, hy, hl⟩ := reachable_inv hr
    cases a <;> simp only [Editor.apply, Option.map_eq_some', Option.some.injEq,
      Prod.mk.injEq] at h
    case Exit =>
      obtain ⟨he, _⟩ := h
      rw [← he]
    case Delete =>
      obtain ⟨he, _⟩ := h
      rw [← he]
    case Up =>
      obtain ⟨e1, hm, he, _⟩ := h
      rw [← he]; unfold linesCountAt; rw [(move_files hm 0).1]
    case Down =>
      obtain ⟨e1, hm, he, _⟩ := h
      rw [← he]; unfold linesCountAt; rw [(move_files hm 0).1]
    case Left =>
      obtain ⟨e1, hm, he, _⟩ := h
      rw [← he]; unfold linesCountAt; rw [(move_files hm 0).1]
    case Right =>
      obtain ⟨e1, hm, he, _⟩ := h
      rw [← he]; unfold linesCountAt; rw [(move_files hm 0).1]
    case Place s =>
      obtain ⟨e1, hp, he, _⟩ := h
      have h3 := (place_shape hp).2.2
      rw [ho, hy] at h3
      have hz : usizeOfI64 (0 : Int) = 0 := by decide
      rw [hz] at h3
      rw [← he, h3]
      omega
    case Remove =>
      obtain ⟨e1, hrm, he, _⟩ := h
      rw [← he, (remove_shape hrm).2.2 0]

/-- Witness for C7: `place("x")` on the fresh editor yields exactly
`0 + 1 = 1` line, and the line count does not drop. -/
theorem C7_witness_place_on_default :
    linesCountAt placedXEditor Editor.default.openIdx =
      usizeOfI64 (caretY Editor.default Editor.default.openIdx) + 1 ∧
    linesCountAt Editor.default 0 ≤ linesCountAt placedXEditor 0 :=
  ⟨C7_amended_lines_never_shrink_on_reachable.1 Editor.default placedXEditor ['x']
      (by decide),
    C7_amended_lines_never_shrink_on_reachable.2 Editor.default Reachable.init
      (Action.Place ['x']) placedXEditor ControlFlow.Continue (by decide)⟩

/-- Claim C8 counterexample: a line split as `"a"` before / `"b"` after
the caret with columns 0 and 1 dirty draws both characters at column 0:
the after-segment instruction is emitted at the rebound offset
`x - forward.len()`, not at the dirty column `x`, so no instruction for
column 1 is produced although column 1 is dirty and resolves to `'b'`. -/
theorem C8_counterexample_after_segment_position :
    splitLineEditor.draw = some [(0, 0, 'a'), (0, 0, 'b')] ∧
    dirtyTest splitLine.dirty 1 = true ∧
    splitLine.backward[1 - splitLine.forward.length]? = some 'b' ∧
    ¬ ((1, 0, 'b') ∈ [((0 : Nat), (0 : Nat), 'a'), ((0 : Nat), (0 : Nat), 'b')]) := by
  decide

/-- Claim C8 (amended): for a dirty column `x`, a before-segment character
is drawn at `(x, row)`; an after-segment character is drawn at
`(x - before_length, row)` (the code reuses the rebound offset as the
column); a column whose resolved offset has no corresponding character is
skipped without error. -/
theorem C8_amended_draw_positions (y : Nat) (line : Line) (x : Nat) (c : Char)
    (hx : x < line.dirty.length) (hd : dirtyTest line.dirty x = true) :
    (x < line.forward.length → line.forward[x]? = some c →
      (u16OfUsize x, u16OfUsize y, c) ∈ drawLine y line) ∧
    (line.forward.length ≤ x → line.backward[x - line.forward.length]? = some c →
      (u16OfUsize (x - line.forward.length), u16OfUsize y, c) ∈ drawLine y line) ∧
    (line.forward.length ≤ x → line.backward[x - line.forward.length]? = none →
      drawCell y line x = none) := by
  refine ⟨?_, ?_, ?_⟩
  · intro hf hc
    refine List.mem_filterMap.mpr ⟨x, List.mem_range.mpr hx, ?_⟩
    simp [drawCell, hd, hf, hc]
  · intro hf hc
    refine List.mem_filterMap.mpr ⟨x, List.mem_range.mpr hx, ?_⟩
    simp [drawCell, hd, hc, Nat.not_lt.mpr hf]
  · intro hf hc
    simp [drawCell, hd, hc, Nat.not_lt.mpr hf]

/-- Witness for C8: on `splitLine`, dirty column 0 draws `'a'` at column 0
and dirty column 1 draws `'b'` at column `1 - 1 = 0`. -/
theorem C8_witness_draw_split_line :
    (u16OfUsize 0, u16OfUsize 0, 'a') ∈ drawLine 0 splitLine ∧
    (u16OfUsize (1 - splitLine.forward.length), u16OfUsize 0, 'b') ∈ drawLine 0 splitLine :=
  ⟨(C8_amended_draw_positions 0 splitLine 0 'a' (by decide) (by decide)).1
      (by decide) (by decide),
    (C8_amended_draw_positions 0 splitLine 1 'b' (by decide) (by decide)).2.1
      (by decide) (by decide)⟩

/-- Claim C9: dispatching `Delete` on any editor state is a no-op that
returns `Continue`: the state — every line, caret and dirty store — is
returned unchanged. -/
theorem C9_delete_is_noop (e : Editor) :
    e.apply Action.Delete = some (e, ControlFlow.Continue) := rfl

/-- Claim C10: no successful dispatch changes any file's committed caret
row, and on every reachable state every file's committed caret row is 0. -/
theorem C10_caret_row_always_zero :
    (∀ (e : Editor) (a : Action) (e2 : Editor) (cf : ControlFlow),
      e.apply a = some (e2, cf) → ∀ fi, caretY e2 fi = caretY e fi) ∧
    (∀ (e : Editor), Reachable e → ∀ fi, caretY e fi = 0) := by
  constructor
  · intro e a e2 cf h fi
    exact apply_caretY h fi
  · intro e hr fi
    obtain ⟨ho, hf, hy, hl⟩ := reachable_inv hr
    rcases Nat.lt_or_ge fi e.files.length with hfi | hfi
    · have h0 : fi = 0 := by omega
      rw [h0]; exact hy
    · unfold caretY
      rw [getD_of_length_le hfi]
      rfl

/-- Witness for C10: `Place("hi")` from the fresh editor keeps the caret
row, and the reached state has caret row 0. -/
theorem C10_witness_place_keeps_row :
    caretY placedHiEditor 0 = caretY Editor.default 0 ∧ caretY placedHiEditor 0 = 0 :=
  ⟨C10_caret_row_always_zero.1 Editor.default (Action.Place ['h', 'i']) placedHiEditor
      ControlFlow.Continue (by decide) 0,
    C10_caret_row_always_zero.2 placedHiEditor
      (Reachable.step Reachable.init (by decide :
        Editor.default.apply (Action.Place ['h', 'i']) =
          some (placedHiEditor, ControlFlow.Continue))) 0⟩

end Editor64
